import Mathlib

/-!
# Verification of the lockotron in-process cache

Shallow embedding of the lockotron repository (cache.go, item.go, locker.go,
cleaner.go) and proofs about it.  Values stored in the cache and loader errors
are kept abstract as type parameters `V` and `ε`; keys are `String` as in the
source; `time.Time` instants are embedded as `Int` nanoseconds since the Unix
epoch (`UnixNano`); the `time.Duration` TTL arguments are likewise `Int`
nanoseconds.  Overflow of int64 is irrelevant at the magnitudes involved, so
plain `Int` is used.

Go maps (`map[string]*item`, `map[string]*deadlock.Mutex`) are embedded as
functions `String → Option _` with pointwise update; a mutation performed
under the exclusive lock corresponds to one application of the embedded
function, so sequential reasoning over these functions reflects the
linearized behaviour of the source.
-/

namespace Lockotron

/-- Modelled from the spec: the configuration source file is absent from the
repository snapshot (only a fork's copy appears among related documents).
The spec reserves a sentinel TTL value meaning "items never expire"; the
source compares `i.ttl == int64(NoTTL)` in `isExpirable`, and the fork and
the Go convention fix the sentinel as the duration `-1` (one negative
nanosecond, as int64).  -/
def NoTTL : Int := -1

/-- Modelled from the spec: the second reserved configuration sentinel,
meaning "no background sweeping"; `NewCache` compares
`config.CleanupInterval != NoCleaner` before starting the cleaner. -/
def NoCleaner : Int := -1

/-- Embeds `type item struct { value interface{}; ttl int64 }` from item.go.
The `ttl` field holds an absolute `UnixNano` expiry instant. -/
structure Item (V : Type) where
  value : V
  ttl : Int
deriving DecidableEq

/-- Embeds `newItem` from item.go:
`&item{value: value, ttl: time.Now().Add(ttl).UnixNano()}`.
The current wall-clock instant `now` (UnixNano) is passed explicitly;
`time.Now().Add(ttl).UnixNano() = now + ttl`.  Note that the source applies
this formula for every ttl, the `NoTTL` sentinel included. -/
def newItem (v : V) (ttl : Int) (now : Int) : Item V :=
  { value := v, ttl := now + ttl }

/-- Embeds `(i *item) isExpirable()` from item.go:
`if i.ttl == int64(NoTTL) { return false }; return true`. -/
def Item.isExpirable (i : Item V) : Bool :=
  if i.ttl == NoTTL then false else true

/-- Embeds the Go error values flowing through the cache: the distinguished
`ErrNotFound = errors.New("cached value not found")` from cache.go, and
whatever error value a caller-supplied fallback function returns. -/
inductive CErr (ε : Type) where
  | errNotFound
  | loaderErr (e : ε)
deriving DecidableEq

/-- Embeds the `items map[string]*item` field of `Cache`. -/
def StoreMap (V : Type) := String → Option (Item V)

/-- Embeds `make(map[string]*item)`: the store of a freshly built cache. -/
def emptyStore : StoreMap V := fun _ => none

/-- Embeds `(c *Cache) set(key, ttl, value)` from cache.go:
`c.items[key] = newItem(value, ttl)` under the exclusive lock. -/
def setKey (s : StoreMap V) (k : String) (ttl : Int) (v : V) (now : Int) :
    StoreMap V :=
  fun k' => if k' = k then some (newItem v ttl now) else s k'

/-- Embeds `(c *Cache) Get(key)` from cache.go: look the key up under the
read lock; on a hit return `(item.value, nil)`, otherwise
`(nil, ErrNotFound)`.  The pair mirrors Go's two-valued return. -/
def get (s : StoreMap V) (k : String) : Option V × Option (CErr ε) :=
  match s k with
  | some it => (some it.value, none)
  | none => (none, some CErr.errNotFound)

/-- Embeds `(c *Cache) DeleteExpired()` from cache.go: one timestamp `now`
is captured at the start (`now := time.Now().UnixNano()`), then under one
exclusive lock every entry with `item.isExpirable() && now > item.ttl` is
deleted and every other entry is kept. -/
def deleteExpired (now : Int) (s : StoreMap V) : StoreMap V :=
  fun k =>
    match s k with
    | some it => if it.isExpirable && decide (now > it.ttl) then none else some it
    | none => none

/-- Embeds `(c *Cache) Delete(key)` from cache.go. -/
def deleteKey (s : StoreMap V) (k : String) : StoreMap V :=
  fun k' => if k' = k then none else s k'

end Lockotron

namespace Lockotron

/-! ## Claims C3, C7, C2 : the store in isolation -/

/-- C3: `Get(k)` returns the stored value with nil error exactly when `k` is
present in the item mapping, returns the distinguished NotFound error exactly
when `k` is absent, and never checks expiry: an item whose TTL has elapsed
(`now > it.ttl` with an expirable item) but which has not been swept is still
returned as present. -/
theorem c3_get_exact {V ε : Type} (s : StoreMap V) (k : String) :
    (∀ it : Item V, s k = some it → get (ε := ε) s k = (some it.value, none))
    ∧ (s k = none → get (ε := ε) s k = (none, some CErr.errNotFound))
    ∧ ((get (ε := ε) s k).2 = none ↔ ∃ it, s k = some it)
    ∧ (∀ (it : Item V) (now : Int), s k = some it →
        it.isExpirable = true → now > it.ttl →
        get (ε := ε) s k = (some it.value, none)) := by
  refine ⟨?_, ?_, ?_, ?_⟩
  · intro it h; simp [get, h]
  · intro h; simp [get, h]
  · constructor
    · intro h
      cases hs : s k with
      | none => rw [get, hs] at h; simp at h
      | some it => exact ⟨it, rfl⟩
    · rintro ⟨it, h⟩; simp [get, h]
  · intro it now h _ _; simp [get, h]

/-- Closed instance of `c3_get_exact` discharging its hypotheses on a
concrete store: "key" is present (and already past its expiry), "absent"
is not. -/
theorem c3_get_exact_witness :
    get (ε := String) (setKey (emptyStore (V := String)) "key" 10 "value" 5) "key"
        = (some "value", none)
    ∧ get (ε := String) (setKey (emptyStore (V := String)) "key" 10 "value" 5) "absent"
        = (none, some CErr.errNotFound) := by
  constructor
  · exact (c3_get_exact _ "key").2.2.2 (newItem "value" 10 5) 100 (by decide)
      (by decide) (by decide)
  · exact (c3_get_exact _ "absent").2.1 (by decide)

/-- C7: `DeleteExpired`, using the single timestamp `now` captured at its
start, removes exactly those entries that are expirable (expiry not the
"never" sentinel) and strictly past `now`, and leaves every other entry
unchanged. -/
theorem c7_deleteExpired_exact {V : Type} (now : Int) (s : StoreMap V) (k : String) :
    (∀ it : Item V, s k = some it → it.isExpirable = true → now > it.ttl →
      deleteExpired now s k = none)
    ∧ (∀ it : Item V, s k = some it → ¬(it.isExpirable = true ∧ now > it.ttl) →
      deleteExpired now s k = some it)
    ∧ (s k = none → deleteExpired now s k = none)
    ∧ (deleteExpired now s k = none ↔
        s k = none ∨ ∃ it, s k = some it ∧ it.isExpirable = true ∧ now > it.ttl) := by
  refine ⟨?_, ?_, ?_, ?_⟩
  · intro it h he hp; simp [deleteExpired, h, he, hp]
  · intro it h hne
    rw [deleteExpired, h]
    by_cases he : it.isExpirable = true
    · have hnp : ¬ now > it.ttl := fun hp => hne ⟨he, hp⟩
      simp [he, hnp]
    · rw [Bool.not_eq_true] at he
      simp [he]
  · intro h; simp [deleteExpired, h]
  · constructor
    · intro h
      cases hs : s k with
      | none => exact Or.inl rfl
      | some it =>
        right
        refine ⟨it, rfl, ?_⟩
        rw [deleteExpired, hs] at h
        by_cases hc : it.isExpirable && decide (now > it.ttl)
        · rcases Bool.and_eq_true _ _ |>.mp hc with ⟨h1, h2⟩
          exact ⟨h1, of_decide_eq_true h2⟩
        · simp [hc] at h
    · rintro (h | ⟨it, h, he, hp⟩)
      · simp [deleteExpired, h]
      · simp [deleteExpired, h, he, hp]

/-- Closed instance of `c7_deleteExpired_exact`: at time 100, an entry that
expired at 50 is removed, an entry expiring at 200 is kept, and a missing
key stays missing. -/
theorem c7_deleteExpired_exact_witness :
    deleteExpired 100 (setKey (setKey (emptyStore (V := String)) "old" (-50) "a" 100)
        "fresh" 100 "b" 100) "old" = none
    ∧ deleteExpired 100 (setKey (setKey (emptyStore (V := String)) "old" (-50) "a" 100)
        "fresh" 100 "b" 100) "fresh" = some (newItem "b" 100 100)
    ∧ deleteExpired 100 (setKey (setKey (emptyStore (V := String)) "old" (-50) "a" 100)
        "fresh" 100 "b" 100) "missing" = none := by
  refine ⟨?_, ?_, ?_⟩
  · exact (c7_deleteExpired_exact 100 _ "old").1 (newItem "a" (-50) 100)
      (by decide) (by decide) (by decide)
  · exact (c7_deleteExpired_exact 100 _ "fresh").2.1 (newItem "b" 100 100)
      (by decide) (by decide)
  · exact (c7_deleteExpired_exact 100 _ "missing").2.2.1 (by decide)

/-- C2 evidence: an item stored with the `NoTTL` ("never expires") sentinel
at UnixNano instant 1700000000000000000 receives the absolute expiry
`now - 1`, not the sentinel; `isExpirable` therefore reports `true` and
`DeleteExpired` run at the very same instant already removes the item.  This
contradicts the repository's own README ("Set to cache.NoTTL is you want to
store your value in cache without expiration"): the sweeper evicts such
items immediately. -/
theorem c2_no_ttl_item_swept_bug :
    (newItem "value" NoTTL 1700000000000000000).ttl = 1700000000000000000 - 1
    ∧ (newItem (V := String) "value" NoTTL 1700000000000000000).isExpirable = true
    ∧ deleteExpired 1700000000000000000
        (setKey (emptyStore (V := String)) "key" NoTTL "value" 1700000000000000000)
        "key" = none
    ∧ (∀ t0 : Int, t0 ≠ 0 →
        (newItem (V := String) "value" NoTTL t0).isExpirable = true) := by
  refine ⟨by decide, by decide, by decide, ?_⟩
  intro t0 h
  rw [Item.isExpirable, newItem]
  have hne : (t0 + NoTTL == NoTTL) = false := by
    rw [beq_eq_false_iff_ne]
    intro hc
    simp only [NoTTL] at hc
    exact h (by omega)
  simp [hne]

end Lockotron

namespace Lockotron

/-! ## The key-lock registry (locker.go) : claim C8 -/

/-- Embeds `type locker struct { mutex deadlock.Mutex; mutexesByKey
map[string]*deadlock.Mutex }` from locker.go.  Go mutex objects are
identified by their allocation order: `next` counts allocations, and an
entry `some m` stands for a pointer to the m-th mutex ever created, so two
entries are the same lock instance exactly when the numbers agree. -/
structure LockerState where
  mutexesByKey : String → Option Nat
  next : Nat

/-- Embeds `newLocker()`: an empty registry. -/
def newLocker : LockerState := ⟨fun _ => none, 0⟩

/-- Embeds `(l *locker) obtain(key)` from locker.go, executed under the
registry's own exclusive lock: if an entry exists return it, otherwise
allocate a fresh mutex, insert it and return it. -/
def obtain (l : LockerState) (k : String) : Nat × LockerState :=
  match l.mutexesByKey k with
  | some m => (m, l)
  | none =>
    (l.next,
      ⟨fun k' => if k' = k then some l.next else l.mutexesByKey k', l.next + 1⟩)

/-- Embeds `(l *locker) release(key)` from locker.go:
`delete(l.mutexesByKey, key)` under the registry's own exclusive lock,
unconditionally. -/
def release (l : LockerState) (k : String) : LockerState :=
  ⟨fun k' => if k' = k then none else l.mutexesByKey k', l.next⟩

/-- One registry operation: the two mutations the source performs on the
lock table. -/
inductive LOp where
  | obtainOp (k : String)
  | releaseOp (k : String)
deriving DecidableEq

/-- State effect of one registry operation. -/
def applyOp (l : LockerState) : LOp → LockerState
  | .obtainOp k => (obtain l k).2
  | .releaseOp k => release l k

/-- State effect of a sequence of registry operations, in order. -/
def applyOps (l : LockerState) : List LOp → LockerState
  | [] => l
  | op :: ops => applyOps (applyOp l op) ops

/-- Registry well-formedness: every mutex recorded in the table was indeed
allocated (its number is below the allocation counter). -/
def WFLocker (l : LockerState) : Prop :=
  ∀ k m, l.mutexesByKey k = some m → m < l.next

theorem obtain_hit (l : LockerState) (k : String) (m : Nat)
    (h : l.mutexesByKey k = some m) : obtain l k = (m, l) := by
  simp [obtain, h]

theorem obtain_miss (l : LockerState) (k : String)
    (h : l.mutexesByKey k = none) :
    obtain l k = (l.next,
      ⟨fun k' => if k' = k then some l.next else l.mutexesByKey k',
        l.next + 1⟩) := by
  simp [obtain, h]

theorem obtain_snd_lookup_other (l : LockerState) (k k' : String)
    (h : k' ≠ k) :
    ((obtain l k).2).mutexesByKey k' = l.mutexesByKey k' := by
  cases hm : l.mutexesByKey k with
  | some m => rw [obtain_hit l k m hm]
  | none => rw [obtain_miss l k hm]; simp [h]

theorem release_lookup_other (l : LockerState) (k k' : String)
    (h : k' ≠ k) :
    (release l k).mutexesByKey k' = l.mutexesByKey k' := by
  simp [release, h]

theorem applyOps_preserves_entry (k : String) (m : Nat) (ops : List LOp) :
    ∀ l : LockerState, LOp.releaseOp k ∉ ops → l.mutexesByKey k = some m →
      (applyOps l ops).mutexesByKey k = some m := by
  induction ops with
  | nil => intro l _ h; exact h
  | cons op ops ih =>
    intro l hmem h
    have hop : LOp.releaseOp k ∉ ops := fun hc => hmem (List.mem_cons_of_mem _ hc)
    refine ih _ hop ?_
    cases op with
    | obtainOp k' =>
      show ((obtain l k').2).mutexesByKey k = some m
      by_cases hk : k = k'
      · subst hk
        rw [obtain_hit l k m h]; exact h
      · rw [obtain_snd_lookup_other l k' k hk]; exact h
    | releaseOp k' =>
      have hk : k ≠ k' := by
        intro hc; subst hc; exact hmem (List.mem_cons_self _ _)
      show (release l k').mutexesByKey k = some m
      rw [release_lookup_other l k' k hk]; exact h

theorem applyOp_wf (l : LockerState) (op : LOp) (hwf : WFLocker l) :
    WFLocker (applyOp l op) := by
  cases op with
  | obtainOp k =>
    show WFLocker (obtain l k).2
    cases hm : l.mutexesByKey k with
    | some m => rw [obtain_hit l k m hm]; exact hwf
    | none =>
      rw [obtain_miss l k hm]
      intro k' m' h'
      simp only [] at h'
      by_cases hk : k' = k
      · rw [if_pos hk] at h'
        injection h' with h''
        show m' < l.next + 1
        omega
      · rw [if_neg hk] at h'
        exact Nat.lt_succ_of_lt (hwf k' m' h')
  | releaseOp k =>
    show WFLocker (release l k)
    intro k' m' h'
    by_cases hk : k' = k
    · rw [show (release l k).mutexesByKey k' = none by simp [release, hk]] at h'
      simp at h'
    · rw [release_lookup_other l k k' hk] at h'
      exact hwf k' m' h'

/-- C8: the registry keeps at most one lock per key (one `Option` entry in
the table): `obtain` returns the existing entry unchanged when one exists
and allocates a genuinely fresh lock only when none does; every later
`obtain` of the key performed before any `release` of that key returns the
same lock instance; and `release` removes the entry unconditionally. -/
theorem c8_locker_registry (l : LockerState) (k : String) :
    (∀ m, l.mutexesByKey k = some m → obtain l k = (m, l))
    ∧ (l.mutexesByKey k = none →
        (obtain l k).1 = l.next
        ∧ (obtain l k).2.mutexesByKey k = some l.next
        ∧ (WFLocker l → ∀ k' m, l.mutexesByKey k' = some m → m ≠ (obtain l k).1))
    ∧ (∀ (ops : List LOp) (m : Nat), LOp.releaseOp k ∉ ops →
        l.mutexesByKey k = some m → (obtain (applyOps l ops) k).1 = m)
    ∧ (release l k).mutexesByKey k = none
    ∧ (∀ ops, WFLocker l → WFLocker (applyOps l ops)) := by
  refine ⟨?_, ?_, ?_, ?_, ?_⟩
  · intro m h; exact obtain_hit l k m h
  · intro h
    refine ⟨by rw [obtain_miss l k h], by rw [obtain_miss l k h]; simp, ?_⟩
    intro hwf k' m h' hc
    have hm : m = l.next := by rw [obtain_miss l k h] at hc; exact hc
    have h2 := hwf k' m h'
    omega
  · intro ops m hmem h
    have h2 := applyOps_preserves_entry k m ops l hmem h
    rw [obtain_hit _ k m h2]
  · simp [release]
  · intro ops hwf
    induction ops generalizing l with
    | nil => exact hwf
    | cons op ops ih => exact ih _ (applyOp_wf l op hwf)

/-- Closed instance of `c8_locker_registry`: after a first obtain of "key"
(lock number 0), an interleaved obtain and release of another key leave a
later obtain of "key" returning the same lock number 0, and a release of
"key" empties its entry. -/
theorem c8_locker_registry_witness :
    (obtain (applyOps (obtain newLocker "key").2
        [LOp.obtainOp "other", LOp.releaseOp "other"]) "key").1 = 0
    ∧ (release (obtain newLocker "key").2 "key").mutexesByKey "key" = none := by
  constructor
  · exact (c8_locker_registry (obtain newLocker "key").2 "key").2.2.1
      [LOp.obtainOp "other", LOp.releaseOp "other"] 0 (by decide) (by decide)
  · exact (c8_locker_registry (obtain newLocker "key").2 "key").2.2.2.1

end Lockotron

namespace Lockotron

/-! ## The fetch path (cache.go `fetch`) : claims C4, C5, C6, C9 -/

/-- Events emitted by one `fetch` call, in execution order: a store read
(`Get`), the registry `obtain`, the per-key mutex `Lock`, the fallback
invocation, the store insert (`SetEx`), the registry `release`, the per-key
mutex `Unlock`. -/
inductive Ev where
  | getEv
  | obtainEv
  | lockEv
  | loaderEv
  | setEv
  | releaseEv
  | unlockEv
deriving DecidableEq

/-- Embeds `(c *Cache) fetch(key, ttl, fallback)` from cache.go, run without
interference from other goroutines, together with the trace of its actions.
The source reads:
  value, err := c.Get(key); if err == nil { return value, nil }
  mutex := c.locker.obtain(key); mutex.Lock()
  defer mutex.Unlock(); defer c.locker.release(key)
  value, err = c.Get(key); if err == nil { return value, nil }
  value, err = fallback(key); if err != nil { return nil, err }
  c.SetEx(key, ttl, value); return value, nil
Deferred calls run last-in-first-out, so on every slow-path return the
registry `release` executes first and the mutex `Unlock` second; the trace
records the calls in their actual execution order. -/
def fetchSeq (s : StoreMap V) (ttl : Int) (k : String)
    (fallback : String → Except ε V) (now : Int) :
    (Option V × Option (CErr ε)) × StoreMap V × List Ev :=
  match get (ε := ε) s k with
  | (value, none) => ((value, none), s, [Ev.getEv])
  | (_, some _) =>
    match get (ε := ε) s k with
    | (value, none) =>
        ((value, none), s,
          [Ev.getEv, Ev.obtainEv, Ev.lockEv, Ev.getEv, Ev.releaseEv, Ev.unlockEv])
    | (_, some _) =>
      match fallback k with
      | Except.error e =>
          ((none, some (CErr.loaderErr e)), s,
            [Ev.getEv, Ev.obtainEv, Ev.lockEv, Ev.getEv, Ev.loaderEv,
              Ev.releaseEv, Ev.unlockEv])
      | Except.ok v =>
          ((some v, none), setKey s k ttl v now,
            [Ev.getEv, Ev.obtainEv, Ev.lockEv, Ev.getEv, Ev.loaderEv, Ev.setEv,
              Ev.releaseEv, Ev.unlockEv])

/-- Embeds `(c *Cache) Fetch(key, fallback)` from cache.go: delegates to
`fetch` with the cache's configured default TTL. -/
def FetchOp (defaultTTL : Int) (s : StoreMap V) (k : String)
    (fallback : String → Except ε V) (now : Int) :
    (Option V × Option (CErr ε)) × StoreMap V × List Ev :=
  fetchSeq s defaultTTL k fallback now

/-- Embeds `(c *Cache) FetchEx(key, ttl, fallback)` from cache.go: delegates
to `fetch` with the explicitly supplied TTL. -/
def FetchExOp (s : StoreMap V) (ttl : Int) (k : String)
    (fallback : String → Except ε V) (now : Int) :
    (Option V × Option (CErr ε)) × StoreMap V × List Ev :=
  fetchSeq s ttl k fallback now

theorem fetchSeq_hit {V ε : Type} (s : StoreMap V) (ttl : Int) (k : String)
    (f : String → Except ε V) (now : Int) (it : Item V) (h : s k = some it) :
    fetchSeq s ttl k f now = ((some it.value, none), s, [Ev.getEv]) := by
  rw [fetchSeq]
  have hg : get (ε := ε) s k = (some it.value, none) := by simp [get, h]
  rw [hg]

theorem fetchSeq_miss_ok {V ε : Type} (s : StoreMap V) (ttl : Int) (k : String)
    (f : String → Except ε V) (now : Int) (v : V)
    (hm : s k = none) (hf : f k = Except.ok v) :
    fetchSeq s ttl k f now =
      ((some v, none), setKey s k ttl v now,
        [Ev.getEv, Ev.obtainEv, Ev.lockEv, Ev.getEv, Ev.loaderEv, Ev.setEv,
          Ev.releaseEv, Ev.unlockEv]) := by
  rw [fetchSeq]
  have hg : get (ε := ε) s k = (none, some CErr.errNotFound) := by simp [get, hm]
  rw [hg, hf]

theorem fetchSeq_miss_err {V ε : Type} (s : StoreMap V) (ttl : Int) (k : String)
    (f : String → Except ε V) (now : Int) (e : ε)
    (hm : s k = none) (hf : f k = Except.error e) :
    fetchSeq s ttl k f now =
      ((none, some (CErr.loaderErr e)), s,
        [Ev.getEv, Ev.obtainEv, Ev.lockEv, Ev.getEv, Ev.loaderEv,
          Ev.releaseEv, Ev.unlockEv]) := by
  rw [fetchSeq]
  have hg : get (ε := ε) s k = (none, some CErr.errNotFound) := by simp [get, hm]
  rw [hg, hf]

/-- C5: on a key already present, `Fetch` and `FetchEx` return the existing
stored value with nil error, never invoke the loader, perform no store
mutation and acquire no per-key lock: the call's trace is the single store
read. -/
theorem c5_fetch_fast_path {V ε : Type} (s : StoreMap V) (dttl ttl now : Int)
    (k : String) (f : String → Except ε V) (it : Item V) (h : s k = some it) :
    FetchOp dttl s k f now = ((some it.value, none), s, [Ev.getEv])
    ∧ FetchExOp s ttl k f now = ((some it.value, none), s, [Ev.getEv])
    ∧ Ev.loaderEv ∉ (FetchOp dttl s k f now).2.2
    ∧ Ev.obtainEv ∉ (FetchOp dttl s k f now).2.2
    ∧ Ev.lockEv ∉ (FetchOp dttl s k f now).2.2
    ∧ Ev.setEv ∉ (FetchOp dttl s k f now).2.2 := by
  have h1 := fetchSeq_hit s dttl k f now it h
  have h2 := fetchSeq_hit s ttl k f now it h
  refine ⟨h1, h2, ?_, ?_, ?_, ?_⟩ <;>
    · show ¬ _ ∈ (fetchSeq s dttl k f now).2.2
      rw [h1]; simp

/-- Closed instance of `c5_fetch_fast_path` on a one-entry store. -/
theorem c5_fetch_fast_path_witness :
    FetchOp (ε := String) 7 (setKey (emptyStore (V := String)) "key" 10 "v1" 5)
        "key" (fun _ => Except.ok "v2") 50
      = ((some "v1", none), setKey (emptyStore (V := String)) "key" 10 "v1" 5,
          [Ev.getEv]) := by
  exact (c5_fetch_fast_path (ε := String)
    (setKey (emptyStore (V := String)) "key" 10 "v1" 5) 7 9 50 "key"
    (fun _ => Except.ok "v2") (newItem "v1" 10 5) (by decide)).1

/-- C4: on a miss whose loader fails with `e`, `fetch` returns `(nil, e)`
with the loader's error propagated verbatim, performs zero store writes,
leaves the key absent, and a subsequent fetch of the key invokes the loader
again (its trace contains the loader event, whatever the new loader or TTL). -/
theorem c4_fetch_error_path {V ε : Type} (s : StoreMap V) (ttl now : Int)
    (k : String) (f : String → Except ε V) (e : ε)
    (hm : s k = none) (hf : f k = Except.error e) :
    fetchSeq s ttl k f now =
      ((none, some (CErr.loaderErr e)), s,
        [Ev.getEv, Ev.obtainEv, Ev.lockEv, Ev.getEv, Ev.loaderEv,
          Ev.releaseEv, Ev.unlockEv])
    ∧ Ev.setEv ∉ (fetchSeq s ttl k f now).2.2
    ∧ (fetchSeq s ttl k f now).2.1 k = none
    ∧ (∀ (f' : String → Except ε V) (ttl' now' : Int),
        Ev.loaderEv ∈ (fetchSeq ((fetchSeq s ttl k f now).2.1) ttl' k f' now').2.2) := by
  have h1 := fetchSeq_miss_err s ttl k f now e hm hf
  refine ⟨h1, by rw [h1]; simp, by rw [h1]; exact hm, ?_⟩
  intro f' ttl' now'
  rw [h1]
  show Ev.loaderEv ∈ (fetchSeq s ttl' k f' now').2.2
  cases hf' : f' k with
  | ok v => rw [fetchSeq_miss_ok s ttl' k f' now' v hm hf']; simp
  | error e' => rw [fetchSeq_miss_err s ttl' k f' now' e' hm hf']; simp

/-- Closed instance of `c4_fetch_error_path` on the empty store with a
loader failing with the error "terrible error". -/
theorem c4_fetch_error_path_witness :
    fetchSeq (emptyStore (V := String)) 7 "key"
        (fun _ => Except.error ("terrible error" : String)) 50 =
      ((none, some (CErr.loaderErr "terrible error")), emptyStore,
        [Ev.getEv, Ev.obtainEv, Ev.lockEv, Ev.getEv, Ev.loaderEv,
          Ev.releaseEv, Ev.unlockEv]) := by
  exact (c4_fetch_error_path (emptyStore (V := String)) 7 50 "key" _
    "terrible error" (by decide) rfl).1

/-- C6: on a miss whose loader succeeds with `v`, `fetch` inserts `v` with
the TTL given to this call (`Fetch` passes the default TTL, `FetchEx` the
explicit one), returns `(v, nil)`, performs exactly one store write, and
afterwards `Get` of the key returns `v`. -/
theorem c6_fetch_success_path {V ε : Type} (s : StoreMap V) (ttl now : Int)
    (k : String) (f : String → Except ε V) (v : V)
    (hm : s k = none) (hf : f k = Except.ok v) :
    fetchSeq s ttl k f now =
      ((some v, none), setKey s k ttl v now,
        [Ev.getEv, Ev.obtainEv, Ev.lockEv, Ev.getEv, Ev.loaderEv, Ev.setEv,
          Ev.releaseEv, Ev.unlockEv])
    ∧ ((fetchSeq s ttl k f now).2.2.count Ev.setEv = 1)
    ∧ (fetchSeq s ttl k f now).2.1 k = some (newItem v ttl now)
    ∧ get (ε := ε) ((fetchSeq s ttl k f now).2.1) k = (some v, none)
    ∧ FetchOp ttl s k f now = fetchSeq s ttl k f now
    ∧ FetchExOp s ttl k f now = fetchSeq s ttl k f now := by
  have h1 := fetchSeq_miss_ok s ttl k f now v hm hf
  refine ⟨h1, by rw [h1]; rfl, ?_, ?_, rfl, rfl⟩
  · rw [h1]; simp [setKey]
  · rw [h1]; simp [get, setKey, newItem]

/-- Closed instance of `c6_fetch_success_path` on the empty store. -/
theorem c6_fetch_success_path_witness :
    fetchSeq (emptyStore (V := String)) (ε := String) 7 "key"
        (fun _ => Except.ok "value") 50 =
      ((some "value", none), setKey emptyStore "key" 7 "value" 50,
        [Ev.getEv, Ev.obtainEv, Ev.lockEv, Ev.getEv, Ev.loaderEv, Ev.setEv,
          Ev.releaseEv, Ev.unlockEv]) := by
  exact (c6_fetch_success_path (emptyStore (V := String)) 7 50 "key" _ "value"
    (by decide) rfl).1

/-- Trace of a concrete cold-cache fetch whose loader succeeds, used to
settle claim C9. -/
def c9trace : List Ev :=
  (fetchSeq (emptyStore (V := String)) (ε := String) 100 "key"
    (fun _ => Except.ok "value") 5).2.2

/-- C9 counterexample: in the concrete cold-cache fetch the registry
`release` executes at position 6 and the mutex `Unlock` at position 7 —
deferred calls run last-in-first-out — so the claim's order "unlock the
per-key lock, then call release(key) immediately after" is false: release
is NOT called after unlocking. -/
theorem c9_release_after_unlock_counterexample :
    c9trace = [Ev.getEv, Ev.obtainEv, Ev.lockEv, Ev.getEv, Ev.loaderEv,
      Ev.setEv, Ev.releaseEv, Ev.unlockEv]
    ∧ Ev.releaseEv ∈ c9trace ∧ Ev.unlockEv ∈ c9trace
    ∧ c9trace.indexOf Ev.releaseEv < c9trace.indexOf Ev.unlockEv
    ∧ ¬ c9trace.indexOf Ev.unlockEv < c9trace.indexOf Ev.releaseEv := by
  decide

/-- C9 amended: every `fetch` that misses and acquires the per-key lock
follows the per-call sequence obtain → lock → recheck store →
populate-or-fail → release → unlock: the registry's `release(key)` runs
immediately BEFORE unlocking the per-key mutex (deferred calls execute in
reverse registration order), not after it. -/
theorem c9_fetch_call_sequence {V ε : Type} (s : StoreMap V) (ttl now : Int)
    (k : String) (f : String → Except ε V) (hm : s k = none) :
    (∀ v, f k = Except.ok v →
      (fetchSeq s ttl k f now).2.2 =
        [Ev.getEv, Ev.obtainEv, Ev.lockEv, Ev.getEv, Ev.loaderEv, Ev.setEv,
          Ev.releaseEv, Ev.unlockEv])
    ∧ (∀ e, f k = Except.error e →
      (fetchSeq s ttl k f now).2.2 =
        [Ev.getEv, Ev.obtainEv, Ev.lockEv, Ev.getEv, Ev.loaderEv,
          Ev.releaseEv, Ev.unlockEv])
    ∧ (∃ mid : List Ev,
        (fetchSeq s ttl k f now).2.2 =
          [Ev.getEv, Ev.obtainEv, Ev.lockEv, Ev.getEv] ++ mid
            ++ [Ev.releaseEv, Ev.unlockEv]) := by
  refine ⟨?_, ?_, ?_⟩
  · intro v hf; rw [fetchSeq_miss_ok s ttl k f now v hm hf]
  · intro e hf; rw [fetchSeq_miss_err s ttl k f now e hm hf]
  · cases hf : f k with
    | ok v =>
      exact ⟨[Ev.loaderEv, Ev.setEv],
        by rw [fetchSeq_miss_ok s ttl k f now v hm hf]; rfl⟩
    | error e =>
      exact ⟨[Ev.loaderEv],
        by rw [fetchSeq_miss_err s ttl k f now e hm hf]; rfl⟩

/-- Closed instance of `c9_fetch_call_sequence` on the concrete trace of
`c9trace`. -/
theorem c9_fetch_call_sequence_witness :
    c9trace = [Ev.getEv, Ev.obtainEv, Ev.lockEv, Ev.getEv, Ev.loaderEv,
      Ev.setEv, Ev.releaseEv, Ev.unlockEv] := by
  exact (c9_fetch_call_sequence (emptyStore (V := String)) 100 5 "key"
    (fun _ => Except.ok ("value" : String)) (by decide)).1 "value" rfl

end Lockotron

namespace Lockotron

/-! ## The background cleaner (cleaner.go) : claim C10 -/

/-- One event delivered to the cleaner's `select` loop: a ticker tick, or a
value received on `stopChan` (sent by closing the channel in `Stop`). -/
inductive CEv where
  | tick
  | stopEv
deriving DecidableEq

/-- Embeds the cleaner's `Start` loop from cleaner.go as a function of the
sequence of events its `select` receives: each ticker tick triggers one
`cache.DeleteExpired()`; a stop signal stops the ticker and returns from the
loop, so no later event triggers anything.  The result counts the
`DeleteExpired` invocations performed. -/
def cleanerSweeps : List CEv → Nat
  | [] => 0
  | CEv.tick :: es => cleanerSweeps es + 1
  | CEv.stopEv :: _ => 0

/-- Embeds the construction guard in `NewCache` (cache.go): a cleaner
goroutine is started only when `config.CleanupInterval != NoCleaner`. -/
def startsCleaner (cleanupInterval : Int) : Bool :=
  cleanupInterval != NoCleaner

/-- C10 evidence for the machinery that does exist: a stop signal halts the
sweeping loop (no `DeleteExpired` runs after it), and with the
no-cleanup sentinel `NewCache` starts no cleaner at all, so there is
nothing to stop.  The Cache itself, however, exposes no `Close` and
retains no reference to the started cleaner (see the results log), so
`Stop` is unreachable from the public interface. -/
theorem c10_cleaner_stop_halts (es : List CEv) :
    cleanerSweeps (CEv.stopEv :: es) = 0
    ∧ startsCleaner NoCleaner = false
    ∧ cleanerSweeps (CEv.tick :: es) = cleanerSweeps es + 1 := by
  refine ⟨rfl, by decide, rfl⟩

end Lockotron

namespace Lockotron

/-! ## Single-flight across concurrent fetches : claim C1

Operational small-step model of N goroutines concurrently executing
`Fetch(key, loader)` on one cold key.  Each shared-state access in the
source is protected by a mutex (`c.mutex` for the store, `l.mutex` for the
registry, the per-key mutex for population), so every such access is one
atomic step here and interleavings of the steps cover all linearized
executions.  Per-key mutex objects are numbered by allocation order, as in
`LockerState`; `reg` is the registry's entry for the key (`release` deletes
it unconditionally, exactly as in locker.go).  The loader is the one from
the repository's single-flight test: it bumps a shared counter (`calls`)
and returns a value identifying the invocation, so "all callers receive
the same value" is observable.  A thread's program counter follows the
source of `fetch`: first `Get`, then `obtain`, `Lock`, second `Get`,
fallback, `SetEx`, and the two deferred calls in last-in-first-out order:
`release` then `Unlock`. -/

/-- Program counter of one goroutine inside `fetch`, with the data it holds:
the per-key mutex number it obtained, and the value it is about to store or
return. -/
inductive TState where
  | start
  | obtainQ
  | lockQ (m : Nat)
  | recheckQ (m : Nat)
  | loaderQ (m : Nat)
  | storeQ (m : Nat) (v : Nat)
  | releaseQ (m : Nat) (v : Nat)
  | unlockQ (m : Nat) (v : Nat)
  | done (v : Nat)
deriving DecidableEq

/-- The mutex number a goroutine currently HOLDS (it is inside its critical
section): from lock acquisition up to, and including, the pending unlock. -/
def TState.heldId : TState → Option Nat
  | .recheckQ m => some m
  | .loaderQ m => some m
  | .storeQ m _ => some m
  | .releaseQ m _ => some m
  | .unlockQ m _ => some m
  | _ => none

/-- The mutex number a goroutine has a reference to: held, or merely
obtained and being waited on. -/
def TState.usedId : TState → Option Nat
  | .lockQ m => some m
  | t => t.heldId

/-- Global state: the program counters of the `n` fetching goroutines, the
store's entry for the key (the value stored, if any), the registry's entry
for the key, the mutex allocation counter, and the loader invocation
counter of the test's fallback function. -/
structure GState (n : Nat) where
  ts : Fin n → TState
  store : Option Nat
  reg : Option Nat
  next : Nat
  calls : Nat

/-- Cold cache: no value stored, empty registry, no mutex allocated, loader
never called, every goroutine before its first step. -/
def initState (n : Nat) : GState n :=
  { ts := fun _ => TState.start, store := none, reg := none
    next := 0, calls := 0 }

/-- One atomic step of one goroutine `i`, following `fetch` from cache.go:
`fastHit`/`missGo` are the first `Get`; `obtainOld`/`obtainNew` are
`locker.obtain` (reuse the registry entry, or insert a fresh mutex);
`lockAcq` acquires the obtained mutex once nobody holds it; `recheckHit`/
`recheckMiss` are the second `Get` under the lock; `runLoader` invokes the
fallback (bumping the shared counter and producing the invocation number as
value); `storeRes` is `c.SetEx`; `doRelease` is the deferred
`locker.release` (deleting the registry entry unconditionally); `doUnlock`
is the deferred mutex unlock, which by LIFO defer order runs last. -/
inductive Step {n : Nat} : GState n → GState n → Prop where
  | fastHit (s : GState n) (i : Fin n) (v : Nat) :
      s.ts i = TState.start → s.store = some v →
      Step s { s with ts := Function.update s.ts i (TState.done v) }
  | missGo (s : GState n) (i : Fin n) :
      s.ts i = TState.start → s.store = none →
      Step s { s with ts := Function.update s.ts i TState.obtainQ }
  | obtainOld (s : GState n) (i : Fin n) (m : Nat) :
      s.ts i = TState.obtainQ → s.reg = some m →
      Step s { s with ts := Function.update s.ts i (TState.lockQ m) }
  | obtainNew (s : GState n) (i : Fin n) :
      s.ts i = TState.obtainQ → s.reg = none →
      Step s { s with ts := Function.update s.ts i (TState.lockQ s.next),
                      reg := some s.next, next := s.next + 1 }
  | lockAcq (s : GState n) (i : Fin n) (m : Nat) :
      s.ts i = TState.lockQ m → (∀ j, (s.ts j).heldId ≠ some m) →
      Step s { s with ts := Function.update s.ts i (TState.recheckQ m) }
  | recheckHit (s : GState n) (i : Fin n) (m v : Nat) :
      s.ts i = TState.recheckQ m → s.store = some v →
      Step s { s with ts := Function.update s.ts i (TState.releaseQ m v) }
  | recheckMiss (s : GState n) (i : Fin n) (m : Nat) :
      s.ts i = TState.recheckQ m → s.store = none →
      Step s { s with ts := Function.update s.ts i (TState.loaderQ m) }
  | runLoader (s : GState n) (i : Fin n) (m : Nat) :
      s.ts i = TState.loaderQ m →
      Step s { s with ts := Function.update s.ts i (TState.storeQ m (s.calls + 1)),
                      calls := s.calls + 1 }
  | storeRes (s : GState n) (i : Fin n) (m v : Nat) :
      s.ts i = TState.storeQ m v →
      Step s { s with ts := Function.update s.ts i (TState.releaseQ m v),
                      store := some v }
  | doRelease (s : GState n) (i : Fin n) (m v : Nat) :
      s.ts i = TState.releaseQ m v →
      Step s { s with ts := Function.update s.ts i (TState.unlockQ m v),
                      reg := none }
  | doUnlock (s : GState n) (i : Fin n) (m v : Nat) :
      s.ts i = TState.unlockQ m v →
      Step s { s with ts := Function.update s.ts i (TState.done v) }

/-- States reachable by the `n` concurrent fetches from the cold cache. -/
def Reachable (n : Nat) (s : GState n) : Prop :=
  Relation.ReflTransGen Step (initState n) s

/-- Inductive invariant of the single-flight system: mutual exclusion per
mutex number, allocation bounds, and the facts that force at most one
loader invocation: while the store is empty at most one mutex ever exists
(the registry entry is deleted only after a store write), every thread past
its loader carries the value 1 (the first invocation number), and the call
counter never exceeds 1. -/
structure Inv {n : Nat} (s : GState n) : Prop where
  excl : ∀ i j m, (s.ts i).heldId = some m → (s.ts j).heldId = some m → i = j
  usesLt : ∀ i m, (s.ts i).usedId = some m → m < s.next
  regLt : ∀ m, s.reg = some m → m < s.next
  coldNext : s.store = none → s.next ≤ 1
  coldReg : s.store = none → s.reg = none → s.next = 0
  relSt : ∀ i m v, s.ts i = TState.releaseQ m v → v = 1 ∧ s.store = some 1
  unlSt : ∀ i m v, s.ts i = TState.unlockQ m v → v = 1 ∧ s.store = some 1
  stQ : ∀ i m v, s.ts i = TState.storeQ m v → v = 1 ∧ s.calls = 1
  stored : ∀ v, s.store = some v → v = 1 ∧ s.calls = 1
  ldQ : ∀ i m, s.ts i = TState.loaderQ m → s.calls = 0 ∧ s.store = none
  callsLe : s.calls ≤ 1
  doneSt : ∀ i v, s.ts i = TState.done v → v = 1 ∧ s.store = some 1
  callsOne : s.calls = 1 → s.store = some 1 ∨ ∃ i m, s.ts i = TState.storeQ m 1

theorem inv_init (n : Nat) : Inv (initState n) := by
  refine ⟨?_, ?_, ?_, ?_, ?_, ?_, ?_, ?_, ?_, ?_, ?_, ?_, ?_⟩ <;>
    simp [initState, TState.heldId, TState.usedId]

end Lockotron

namespace Lockotron

theorem ts_update_cases {n : Nat} (ts : Fin n → TState) (i c : Fin n)
    (q t : TState) (hc : Function.update ts i q c = t) :
    (c = i ∧ q = t) ∨ (c ≠ i ∧ ts c = t) := by
  rcases eq_or_ne c i with rfl | hnc
  · rw [Function.update_same] at hc; exact Or.inl ⟨rfl, hc⟩
  · rw [Function.update_noteq hnc] at hc; exact Or.inr ⟨hnc, hc⟩

theorem held_update_cases {n : Nat} (ts : Fin n → TState) (i c : Fin n)
    (q : TState) (m' : Nat)
    (hc : (Function.update ts i q c).heldId = some m') :
    (c = i ∧ q.heldId = some m') ∨ (c ≠ i ∧ (ts c).heldId = some m') := by
  rcases eq_or_ne c i with rfl | hnc
  · rw [Function.update_same] at hc; exact Or.inl ⟨rfl, hc⟩
  · rw [Function.update_noteq hnc] at hc; exact Or.inr ⟨hnc, hc⟩

theorem used_update_cases {n : Nat} (ts : Fin n → TState) (i c : Fin n)
    (q : TState) (m' : Nat)
    (hc : (Function.update ts i q c).usedId = some m') :
    (c = i ∧ q.usedId = some m') ∨ (c ≠ i ∧ (ts c).usedId = some m') := by
  rcases eq_or_ne c i with rfl | hnc
  · rw [Function.update_same] at hc; exact Or.inl ⟨rfl, hc⟩
  · rw [Function.update_noteq hnc] at hc; exact Or.inr ⟨hnc, hc⟩

/-- The inductive invariant is preserved by every step of the single-flight
system. -/
theorem inv_step {n : Nat} {s s' : GState n} (h : Inv s) (hs : Step s s') :
    Inv s' := by
  cases hs with
  | fastHit i v hts hst =>
    refine ⟨?_, ?_, h.regLt, h.coldNext, h.coldReg, ?_, ?_, ?_, h.stored,
      ?_, h.callsLe, ?_, ?_⟩
    · intro a b m' ha hb
      rcases held_update_cases _ _ _ _ _ ha with ⟨rfl, hq⟩ | ⟨hna, ha'⟩
      · cases hq
      · rcases held_update_cases _ _ _ _ _ hb with ⟨rfl, hq⟩ | ⟨hnb, hb'⟩
        · cases hq
        · exact h.excl a b m' ha' hb'
    · intro a m' ha
      rcases used_update_cases _ _ _ _ _ ha with ⟨rfl, hq⟩ | ⟨hna, ha'⟩
      · cases hq
      · exact h.usesLt a m' ha'
    · intro a m' v' ha
      rcases ts_update_cases _ _ _ _ _ ha with ⟨rfl, hq⟩ | ⟨hna, ha'⟩
      · cases hq
      · exact h.relSt a m' v' ha'
    · intro a m' v' ha
      rcases ts_update_cases _ _ _ _ _ ha with ⟨rfl, hq⟩ | ⟨hna, ha'⟩
      · cases hq
      · exact h.unlSt a m' v' ha'
    · intro a m' v' ha
      rcases ts_update_cases _ _ _ _ _ ha with ⟨rfl, hq⟩ | ⟨hna, ha'⟩
      · cases hq
      · exact h.stQ a m' v' ha'
    · intro a m' ha
      rcases ts_update_cases _ _ _ _ _ ha with ⟨rfl, hq⟩ | ⟨hna, ha'⟩
      · cases hq
      · exact h.ldQ a m' ha'
    · intro a v' ha
      rcases ts_update_cases _ _ _ _ _ ha with ⟨rfl, hq⟩ | ⟨hna, ha'⟩
      · injection hq with hv
        obtain ⟨hv1, _⟩ := h.stored v hst
        subst hv
        exact ⟨hv1, by show s.store = some 1; rw [hst, hv1]⟩
      · exact h.doneSt a v' ha'
    · intro hc
      rcases h.callsOne hc with hst1 | ⟨a, m', ha⟩
      · exact Or.inl hst1
      · refine Or.inr ⟨a, m', ?_⟩
        have hna : a ≠ i := by
          intro hai; subst hai; rw [hts] at ha; cases ha
        exact (Function.update_noteq hna _ _).trans ha
  | missGo i hts hst =>
    refine ⟨?_, ?_, h.regLt, h.coldNext, h.coldReg, ?_, ?_, ?_, h.stored,
      ?_, h.callsLe, ?_, ?_⟩
    · intro a b m' ha hb
      rcases held_update_cases _ _ _ _ _ ha with ⟨rfl, hq⟩ | ⟨hna, ha'⟩
      · cases hq
      · rcases held_update_cases _ _ _ _ _ hb with ⟨rfl, hq⟩ | ⟨hnb, hb'⟩
        · cases hq
        · exact h.excl a b m' ha' hb'
    · intro a m' ha
      rcases used_update_cases _ _ _ _ _ ha with ⟨rfl, hq⟩ | ⟨hna, ha'⟩
      · cases hq
      · exact h.usesLt a m' ha'
    · intro a m' v' ha
      rcases ts_update_cases _ _ _ _ _ ha with ⟨rfl, hq⟩ | ⟨hna, ha'⟩
      · cases hq
      · exact h.relSt a m' v' ha'
    · intro a m' v' ha
      rcases ts_update_cases _ _ _ _ _ ha with ⟨rfl, hq⟩ | ⟨hna, ha'⟩
      · cases hq
      · exact h.unlSt a m' v' ha'
    · intro a m' v' ha
      rcases ts_update_cases _ _ _ _ _ ha with ⟨rfl, hq⟩ | ⟨hna, ha'⟩
      · cases hq
      · exact h.stQ a m' v' ha'
    · intro a m' ha
      rcases ts_update_cases _ _ _ _ _ ha with ⟨rfl, hq⟩ | ⟨hna, ha'⟩
      · cases hq
      · exact h.ldQ a m' ha'
    · intro a v' ha
      rcases ts_update_cases _ _ _ _ _ ha with ⟨rfl, hq⟩ | ⟨hna, ha'⟩
      · cases hq
      · exact h.doneSt a v' ha'
    · intro hc
      rcases h.callsOne hc with hst1 | ⟨a, m', ha⟩
      · exact Or.inl hst1
      · refine Or.inr ⟨a, m', ?_⟩
        have hna : a ≠ i := by
          intro hai; subst hai; rw [hts] at ha; cases ha
        exact (Function.update_noteq hna _ _).trans ha
  | obtainOld i m hts hreg =>
    refine ⟨?_, ?_, h.regLt, h.coldNext, h.coldReg, ?_, ?_, ?_, h.stored,
      ?_, h.callsLe, ?_, ?_⟩
    · intro a b m' ha hb
      rcases held_update_cases _ _ _ _ _ ha with ⟨rfl, hq⟩ | ⟨hna, ha'⟩
      · cases hq
      · rcases held_update_cases _ _ _ _ _ hb with ⟨rfl, hq⟩ | ⟨hnb, hb'⟩
        · cases hq
        · exact h.excl a b m' ha' hb'
    · intro a m' ha
      rcases used_update_cases _ _ _ _ _ ha with ⟨rfl, hq⟩ | ⟨hna, ha'⟩
      · have hm : m' = m := by
          simp [TState.usedId] at hq; omega
        subst hm
        exact h.regLt m' hreg
      · exact h.usesLt a m' ha'
    · intro a m' v' ha
      rcases ts_update_cases _ _ _ _ _ ha with ⟨rfl, hq⟩ | ⟨hna, ha'⟩
      · cases hq
      · exact h.relSt a m' v' ha'
    · intro a m' v' ha
      rcases ts_update_cases _ _ _ _ _ ha with ⟨rfl, hq⟩ | ⟨hna, ha'⟩
      · cases hq
      · exact h.unlSt a m' v' ha'
    · intro a m' v' ha
      rcases ts_update_cases _ _ _ _ _ ha with ⟨rfl, hq⟩ | ⟨hna, ha'⟩
      · cases hq
      · exact h.stQ a m' v' ha'
    · intro a m' ha
      rcases ts_update_cases _ _ _ _ _ ha with ⟨rfl, hq⟩ | ⟨hna, ha'⟩
      · cases hq
      · exact h.ldQ a m' ha'
    · intro a v' ha
      rcases ts_update_cases _ _ _ _ _ ha with ⟨rfl, hq⟩ | ⟨hna, ha'⟩
      · cases hq
      · exact h.doneSt a v' ha'
    · intro hc
      rcases h.callsOne hc with hst1 | ⟨a, m', ha⟩
      · exact Or.inl hst1
      · refine Or.inr ⟨a, m', ?_⟩
        have hna : a ≠ i := by
          intro hai; subst hai; rw [hts] at ha; cases ha
        exact (Function.update_noteq hna _ _).trans ha
  | obtainNew i hts hreg =>
    refine ⟨?_, ?_, ?_, ?_, ?_, ?_, ?_, ?_, h.stored, ?_, h.callsLe, ?_, ?_⟩
    · intro a b m' ha hb
      rcases held_update_cases _ _ _ _ _ ha with ⟨rfl, hq⟩ | ⟨hna, ha'⟩
      · cases hq
      · rcases held_update_cases _ _ _ _ _ hb with ⟨rfl, hq⟩ | ⟨hnb, hb'⟩
        · cases hq
        · exact h.excl a b m' ha' hb'
    · intro a m' ha
      rcases used_update_cases _ _ _ _ _ ha with ⟨rfl, hq⟩ | ⟨hna, ha'⟩
      · have hm : m' = s.next := by
          simp [TState.usedId] at hq; omega
        subst hm
        exact Nat.lt_succ_self _
      · exact Nat.lt_succ_of_lt (h.usesLt a m' ha')
    · intro m' hm'
      injection hm' with hm'
      subst hm'
      exact Nat.lt_succ_self _
    · intro hstore
      have h0 := h.coldReg hstore hreg
      show s.next + 1 ≤ 1
      omega
    · intro _ hregeq
      simp at hregeq
    · intro a m' v' ha
      rcases ts_update_cases _ _ _ _ _ ha with ⟨rfl, hq⟩ | ⟨hna, ha'⟩
      · cases hq
      · exact h.relSt a m' v' ha'
    · intro a m' v' ha
      rcases ts_update_cases _ _ _ _ _ ha with ⟨rfl, hq⟩ | ⟨hna, ha'⟩
      · cases hq
      · exact h.unlSt a m' v' ha'
    · intro a m' v' ha
      rcases ts_update_cases _ _ _ _ _ ha with ⟨rfl, hq⟩ | ⟨hna, ha'⟩
      · cases hq
      · exact h.stQ a m' v' ha'
    · intro a m' ha
      rcases ts_update_cases _ _ _ _ _ ha with ⟨rfl, hq⟩ | ⟨hna, ha'⟩
      · cases hq
      · exact h.ldQ a m' ha'
    · intro a v' ha
      rcases ts_update_cases _ _ _ _ _ ha with ⟨rfl, hq⟩ | ⟨hna, ha'⟩
      · cases hq
      · exact h.doneSt a v' ha'
    · intro hc
      rcases h.callsOne hc with hst1 | ⟨a, m', ha⟩
      · exact Or.inl hst1
      · refine Or.inr ⟨a, m', ?_⟩
        have hna : a ≠ i := by
          intro hai; subst hai; rw [hts] at ha; cases ha
        exact (Function.update_noteq hna _ _).trans ha
  | lockAcq i m hts hfree =>
    refine ⟨?_, ?_, h.regLt, h.coldNext, h.coldReg, ?_, ?_, ?_, h.stored,
      ?_, h.callsLe, ?_, ?_⟩
    · intro a b m' ha hb
      rcases held_update_cases _ _ _ _ _ ha with ⟨rfl, hqa⟩ | ⟨hna, ha'⟩
      · have hma : m' = m := by simp [TState.heldId] at hqa; omega
        subst hma
        rcases held_update_cases _ _ _ _ _ hb with ⟨rfl, _⟩ | ⟨hnb, hb'⟩
        · rfl
        · exact absurd hb' (hfree b)
      · rcases held_update_cases _ _ _ _ _ hb with ⟨rfl, hqb⟩ | ⟨hnb, hb'⟩
        · have hmb : m' = m := by simp [TState.heldId] at hqb; omega
          subst hmb
          exact absurd ha' (hfree a)
        · exact h.excl a b m' ha' hb'
    · intro a m' ha
      rcases used_update_cases _ _ _ _ _ ha with ⟨rfl, hq⟩ | ⟨hna, ha'⟩
      · have hm : m' = m := by
          simp [TState.usedId, TState.heldId] at hq; omega
        subst hm
        exact h.usesLt a m' (by rw [hts]; rfl)
      · exact h.usesLt a m' ha'
    · intro a m' v' ha
      rcases ts_update_cases _ _ _ _ _ ha with ⟨rfl, hq⟩ | ⟨hna, ha'⟩
      · cases hq
      · exact h.relSt a m' v' ha'
    · intro a m' v' ha
      rcases ts_update_cases _ _ _ _ _ ha with ⟨rfl, hq⟩ | ⟨hna, ha'⟩
      · cases hq
      · exact h.unlSt a m' v' ha'
    · intro a m' v' ha
      rcases ts_update_cases _ _ _ _ _ ha with ⟨rfl, hq⟩ | ⟨hna, ha'⟩
      · cases hq
      · exact h.stQ a m' v' ha'
    · intro a m' ha
      rcases ts_update_cases _ _ _ _ _ ha with ⟨rfl, hq⟩ | ⟨hna, ha'⟩
      · cases hq
      · exact h.ldQ a m' ha'
    · intro a v' ha
      rcases ts_update_cases _ _ _ _ _ ha with ⟨rfl, hq⟩ | ⟨hna, ha'⟩
      · cases hq
      · exact h.doneSt a v' ha'
    · intro hc
      rcases h.callsOne hc with hst1 | ⟨a, m', ha⟩
      · exact Or.inl hst1
      · refine Or.inr ⟨a, m', ?_⟩
        have hna : a ≠ i := by
          intro hai; subst hai; rw [hts] at ha; cases ha
        exact (Function.update_noteq hna _ _).trans ha
  | recheckHit i m v hts hst =>
    refine ⟨?_, ?_, h.regLt, h.coldNext, h.coldReg, ?_, ?_, ?_, h.stored,
      ?_, h.callsLe, ?_, ?_⟩
    · intro a b m' ha hb
      have key : ∀ c, (Function.update s.ts i (TState.releaseQ m v) c).heldId
          = some m' → (s.ts c).heldId = some m' := by
        intro c hc
        rcases held_update_cases _ _ _ _ _ hc with ⟨rfl, hq⟩ | ⟨hnc, hc'⟩
        · have hm : m' = m := by simp [TState.heldId] at hq; omega
          subst hm
          rw [hts]; rfl
        · exact hc'
      exact h.excl a b m' (key a ha) (key b hb)
    · intro a m' ha
      rcases used_update_cases _ _ _ _ _ ha with ⟨rfl, hq⟩ | ⟨hna, ha'⟩
      · have hm : m' = m := by
          simp [TState.usedId, TState.heldId] at hq; omega
        subst hm
        exact h.usesLt a m' (by rw [hts]; rfl)
      · exact h.usesLt a m' ha'
    · intro a m' v' ha
      rcases ts_update_cases _ _ _ _ _ ha with ⟨rfl, hq⟩ | ⟨hna, ha'⟩
      · injection hq with hm hv
        obtain ⟨hv1, _⟩ := h.stored v hst
        subst hv
        exact ⟨hv1, by show s.store = some 1; rw [hst, hv1]⟩
      · exact h.relSt a m' v' ha'
    · intro a m' v' ha
      rcases ts_update_cases _ _ _ _ _ ha with ⟨rfl, hq⟩ | ⟨hna, ha'⟩
      · cases hq
      · exact h.unlSt a m' v' ha'
    · intro a m' v' ha
      rcases ts_update_cases _ _ _ _ _ ha with ⟨rfl, hq⟩ | ⟨hna, ha'⟩
      · cases hq
      · exact h.stQ a m' v' ha'
    · intro a m' ha
      rcases ts_update_cases _ _ _ _ _ ha with ⟨rfl, hq⟩ | ⟨hna, ha'⟩
      · cases hq
      · exact h.ldQ a m' ha'
    · intro a v' ha
      rcases ts_update_cases _ _ _ _ _ ha with ⟨rfl, hq⟩ | ⟨hna, ha'⟩
      · cases hq
      · exact h.doneSt a v' ha'
    · intro hc
      rcases h.callsOne hc with hst1 | ⟨a, m', ha⟩
      · exact Or.inl hst1
      · refine Or.inr ⟨a, m', ?_⟩
        have hna : a ≠ i := by
          intro hai; subst hai; rw [hts] at ha; cases ha
        exact (Function.update_noteq hna _ _).trans ha
  | recheckMiss i m hts hst =>
    refine ⟨?_, ?_, h.regLt, h.coldNext, h.coldReg, ?_, ?_, ?_, h.stored,
      ?_, h.callsLe, ?_, ?_⟩
    · intro a b m' ha hb
      have key : ∀ c, (Function.update s.ts i (TState.loaderQ m) c).heldId
          = some m' → (s.ts c).heldId = some m' := by
        intro c hc
        rcases held_update_cases _ _ _ _ _ hc with ⟨rfl, hq⟩ | ⟨hnc, hc'⟩
        · have hm : m' = m := by simp [TState.heldId] at hq; omega
          subst hm
          rw [hts]; rfl
        · exact hc'
      exact h.excl a b m' (key a ha) (key b hb)
    · intro a m' ha
      rcases used_update_cases _ _ _ _ _ ha with ⟨rfl, hq⟩ | ⟨hna, ha'⟩
      · have hm : m' = m := by
          simp [TState.usedId, TState.heldId] at hq; omega
        subst hm
        exact h.usesLt a m' (by rw [hts]; rfl)
      · exact h.usesLt a m' ha'
    · intro a m' v' ha
      rcases ts_update_cases _ _ _ _ _ ha with ⟨rfl, hq⟩ | ⟨hna, ha'⟩
      · cases hq
      · exact h.relSt a m' v' ha'
    · intro a m' v' ha
      rcases ts_update_cases _ _ _ _ _ ha with ⟨rfl, hq⟩ | ⟨hna, ha'⟩
      · cases hq
      · exact h.unlSt a m' v' ha'
    · intro a m' v' ha
      rcases ts_update_cases _ _ _ _ _ ha with ⟨rfl, hq⟩ | ⟨hna, ha'⟩
      · cases hq
      · exact h.stQ a m' v' ha'
    · intro a m' ha
      rcases ts_update_cases _ _ _ _ _ ha with ⟨rfl, hq⟩ | ⟨hna, ha'⟩
      · refine ⟨?_, hst⟩
        rcases Nat.eq_zero_or_pos s.calls with h0 | hpos
        · exact h0
        · exfalso
          have hc1 : s.calls = 1 := le_antisymm h.callsLe hpos
          rcases h.callsOne hc1 with hsome | ⟨b, mb, hb⟩
          · rw [hst] at hsome; cases hsome
          · have hmb : mb < s.next := h.usesLt b mb (by rw [hb]; rfl)
            have hmi : m < s.next := h.usesLt a m (by rw [hts]; rfl)
            have hn1 : s.next ≤ 1 := h.coldNext hst
            have hmbm : mb = m := by omega
            have hbi : b = a := h.excl b a m
              (by rw [hb]; simp [TState.heldId, hmbm]) (by rw [hts]; rfl)
            rw [hbi, hts] at hb
            cases hb
      · exact h.ldQ a m' ha'
    · intro a v' ha
      rcases ts_update_cases _ _ _ _ _ ha with ⟨rfl, hq⟩ | ⟨hna, ha'⟩
      · cases hq
      · exact h.doneSt a v' ha'
    · intro hc
      rcases h.callsOne hc with hst1 | ⟨a, m', ha⟩
      · exact Or.inl hst1
      · refine Or.inr ⟨a, m', ?_⟩
        have hna : a ≠ i := by
          intro hai; subst hai; rw [hts] at ha; cases ha
        exact (Function.update_noteq hna _ _).trans ha
  | runLoader i m hts =>
    obtain ⟨hcalls0, hstore0⟩ := h.ldQ i m hts
    refine ⟨?_, ?_, h.regLt, h.coldNext, h.coldReg, ?_, ?_, ?_, ?_, ?_, ?_,
      ?_, ?_⟩
    · intro a b m' ha hb
      have key : ∀ c, (Function.update s.ts i
          (TState.storeQ m (s.calls + 1)) c).heldId
          = some m' → (s.ts c).heldId = some m' := by
        intro c hc
        rcases held_update_cases _ _ _ _ _ hc with ⟨rfl, hq⟩ | ⟨hnc, hc'⟩
        · have hm : m' = m := by simp [TState.heldId] at hq; omega
          subst hm
          rw [hts]; rfl
        · exact hc'
      exact h.excl a b m' (key a ha) (key b hb)
    · intro a m' ha
      rcases used_update_cases _ _ _ _ _ ha with ⟨rfl, hq⟩ | ⟨hna, ha'⟩
      · have hm : m' = m := by
          simp [TState.usedId, TState.heldId] at hq; omega
        subst hm
        exact h.usesLt a m' (by rw [hts]; rfl)
      · exact h.usesLt a m' ha'
    · intro a m' v' ha
      rcases ts_update_cases _ _ _ _ _ ha with ⟨rfl, hq⟩ | ⟨hna, ha'⟩
      · cases hq
      · exfalso
        obtain ⟨_, hsome⟩ := h.relSt a m' v' ha'
        rw [hstore0] at hsome; cases hsome
    · intro a m' v' ha
      rcases ts_update_cases _ _ _ _ _ ha with ⟨rfl, hq⟩ | ⟨hna, ha'⟩
      · cases hq
      · exfalso
        obtain ⟨_, hsome⟩ := h.unlSt a m' v' ha'
        rw [hstore0] at hsome; cases hsome
    · intro a m' v' ha
      rcases ts_update_cases _ _ _ _ _ ha with ⟨rfl, hq⟩ | ⟨hna, ha'⟩
      · injection hq with hm hv
        constructor
        · omega
        · show s.calls + 1 = 1
          omega
      · exfalso
        have := (h.stQ a m' v' ha').2
        omega
    · intro v' hv'
      exfalso
      rw [hstore0] at hv'
      cases hv'
    · intro a m' ha
      rcases ts_update_cases _ _ _ _ _ ha with ⟨rfl, hq⟩ | ⟨hna, ha'⟩
      · cases hq
      · exfalso
        have hma : m' < s.next := h.usesLt a m' (by rw [ha']; rfl)
        have hmi : m < s.next := h.usesLt i m (by rw [hts]; rfl)
        have hn1 : s.next ≤ 1 := h.coldNext hstore0
        have heq : m' = m := by omega
        have hai : a = i := h.excl a i m
          (by rw [ha']; simp [TState.heldId, heq]) (by rw [hts]; rfl)
        exact hna hai
    · show s.calls + 1 ≤ 1
      omega
    · intro a v' ha
      rcases ts_update_cases _ _ _ _ _ ha with ⟨rfl, hq⟩ | ⟨hna, ha'⟩
      · cases hq
      · exfalso
        obtain ⟨_, hsome⟩ := h.doneSt a v' ha'
        rw [hstore0] at hsome; cases hsome
    · intro _
      refine Or.inr ⟨i, m, ?_⟩
      show Function.update s.ts i (TState.storeQ m (s.calls + 1)) i
        = TState.storeQ m 1
      rw [Function.update_same, hcalls0]
  | storeRes i m v hts =>
    obtain ⟨hv1, hc1⟩ := h.stQ i m v hts
    refine ⟨?_, ?_, h.regLt, ?_, ?_, ?_, ?_, ?_, ?_, ?_, h.callsLe, ?_, ?_⟩
    · intro a b m' ha hb
      have key : ∀ c, (Function.update s.ts i (TState.releaseQ m v) c).heldId
          = some m' → (s.ts c).heldId = some m' := by
        intro c hc
        rcases held_update_cases _ _ _ _ _ hc with ⟨rfl, hq⟩ | ⟨hnc, hc'⟩
        · have hm : m' = m := by simp [TState.heldId] at hq; omega
          subst hm
          rw [hts]; rfl
        · exact hc'
      exact h.excl a b m' (key a ha) (key b hb)
    · intro a m' ha
      rcases used_update_cases _ _ _ _ _ ha with ⟨rfl, hq⟩ | ⟨hna, ha'⟩
      · have hm : m' = m := by
          simp [TState.usedId, TState.heldId] at hq; omega
        subst hm
        exact h.usesLt a m' (by rw [hts]; rfl)
      · exact h.usesLt a m' ha'
    · intro hx
      simp at hx
    · intro hx
      simp at hx
    · intro a m' v' ha
      rcases ts_update_cases _ _ _ _ _ ha with ⟨rfl, hq⟩ | ⟨hna, ha'⟩
      · injection hq with hm hv
        subst hv
        exact ⟨hv1, by show some v = some 1; rw [hv1]⟩
      · exact ⟨(h.relSt a m' v' ha').1, by show some v = some 1; rw [hv1]⟩
    · intro a m' v' ha
      rcases ts_update_cases _ _ _ _ _ ha with ⟨rfl, hq⟩ | ⟨hna, ha'⟩
      · cases hq
      · exact ⟨(h.unlSt a m' v' ha').1, by show some v = some 1; rw [hv1]⟩
    · intro a m' v' ha
      rcases ts_update_cases _ _ _ _ _ ha with ⟨rfl, hq⟩ | ⟨hna, ha'⟩
      · cases hq
      · exact h.stQ a m' v' ha'
    · intro v' hv'
      have hv2 : some v = some v' := hv'
      injection hv2 with hv2
      exact ⟨by omega, hc1⟩
    · intro a m' ha
      rcases ts_update_cases _ _ _ _ _ ha with ⟨rfl, hq⟩ | ⟨hna, ha'⟩
      · cases hq
      · exfalso
        have := (h.ldQ a m' ha').1
        omega
    · intro a v' ha
      rcases ts_update_cases _ _ _ _ _ ha with ⟨rfl, hq⟩ | ⟨hna, ha'⟩
      · cases hq
      · exact ⟨(h.doneSt a v' ha').1, by show some v = some 1; rw [hv1]⟩
    · intro _
      exact Or.inl (by show some v = some 1; rw [hv1])
  | doRelease i m v hts =>
    obtain ⟨hv1, hst1⟩ := h.relSt i m v hts
    refine ⟨?_, ?_, ?_, ?_, ?_, ?_, ?_, ?_, h.stored, ?_, h.callsLe,
      ?_, ?_⟩
    · intro a b m' ha hb
      have key : ∀ c, (Function.update s.ts i (TState.unlockQ m v) c).heldId
          = some m' → (s.ts c).heldId = some m' := by
        intro c hc
        rcases held_update_cases _ _ _ _ _ hc with ⟨rfl, hq⟩ | ⟨hnc, hc'⟩
        · have hm : m' = m := by simp [TState.heldId] at hq; omega
          subst hm
          rw [hts]; rfl
        · exact hc'
      exact h.excl a b m' (key a ha) (key b hb)
    · intro a m' ha
      rcases used_update_cases _ _ _ _ _ ha with ⟨rfl, hq⟩ | ⟨hna, ha'⟩
      · have hm : m' = m := by
          simp [TState.usedId, TState.heldId] at hq; omega
        subst hm
        exact h.usesLt a m' (by rw [hts]; rfl)
      · exact h.usesLt a m' ha'
    · intro m' hm'
      simp at hm'
    · intro hx
      have hx' : s.store = none := hx
      rw [hst1] at hx'; cases hx'
    · intro hx _
      have hx' : s.store = none := hx
      rw [hst1] at hx'; cases hx'
    · intro a m' v' ha
      rcases ts_update_cases _ _ _ _ _ ha with ⟨rfl, hq⟩ | ⟨hna, ha'⟩
      · cases hq
      · exact h.relSt a m' v' ha'
    · intro a m' v' ha
      rcases ts_update_cases _ _ _ _ _ ha with ⟨rfl, hq⟩ | ⟨hna, ha'⟩
      · injection hq with hm hv
        subst hv
        exact ⟨hv1, hst1⟩
      · exact h.unlSt a m' v' ha'
    · intro a m' v' ha
      rcases ts_update_cases _ _ _ _ _ ha with ⟨rfl, hq⟩ | ⟨hna, ha'⟩
      · cases hq
      · exact h.stQ a m' v' ha'
    · intro a m' ha
      rcases ts_update_cases _ _ _ _ _ ha with ⟨rfl, hq⟩ | ⟨hna, ha'⟩
      · cases hq
      · exact h.ldQ a m' ha'
    · intro a v' ha
      rcases ts_update_cases _ _ _ _ _ ha with ⟨rfl, hq⟩ | ⟨hna, ha'⟩
      · cases hq
      · exact h.doneSt a v' ha'
    · intro _
      exact Or.inl hst1
  | doUnlock i m v hts =>
    obtain ⟨hv1, hst1⟩ := h.unlSt i m v hts
    refine ⟨?_, ?_, h.regLt, h.coldNext, h.coldReg, ?_, ?_, ?_, h.stored,
      ?_, h.callsLe, ?_, ?_⟩
    · intro a b m' ha hb
      rcases held_update_cases _ _ _ _ _ ha with ⟨rfl, hq⟩ | ⟨hna, ha'⟩
      · cases hq
      · rcases held_update_cases _ _ _ _ _ hb with ⟨rfl, hq⟩ | ⟨hnb, hb'⟩
        · cases hq
        · exact h.excl a b m' ha' hb'
    · intro a m' ha
      rcases used_update_cases _ _ _ _ _ ha with ⟨rfl, hq⟩ | ⟨hna, ha'⟩
      · cases hq
      · exact h.usesLt a m' ha'
    · intro a m' v' ha
      rcases ts_update_cases _ _ _ _ _ ha with ⟨rfl, hq⟩ | ⟨hna, ha'⟩
      · cases hq
      · exact h.relSt a m' v' ha'
    · intro a m' v' ha
      rcases ts_update_cases _ _ _ _ _ ha with ⟨rfl, hq⟩ | ⟨hna, ha'⟩
      · cases hq
      · exact h.unlSt a m' v' ha'
    · intro a m' v' ha
      rcases ts_update_cases _ _ _ _ _ ha with ⟨rfl, hq⟩ | ⟨hna, ha'⟩
      · cases hq
      · exact h.stQ a m' v' ha'
    · intro a m' ha
      rcases ts_update_cases _ _ _ _ _ ha with ⟨rfl, hq⟩ | ⟨hna, ha'⟩
      · cases hq
      · exact h.ldQ a m' ha'
    · intro a v' ha
      rcases ts_update_cases _ _ _ _ _ ha with ⟨rfl, hq⟩ | ⟨hna, ha'⟩
      · injection hq with hv
        subst hv
        exact ⟨hv1, hst1⟩
      · exact h.doneSt a v' ha'
    · intro _
      exact Or.inl hst1

end Lockotron

namespace Lockotron

theorem inv_reachable (n : Nat) (s : GState n) (h : Reachable n s) : Inv s := by
  induction h with
  | refl => exact inv_init n
  | tail _ hstep ih => exact inv_step ih hstep

/-- C1: for any number `n` of goroutines concurrently fetching one cold key,
in every reachable interleaving the loader has run at most once; every
finished caller received the value of the single first loader invocation,
which is exactly the value the store holds; as soon as any caller has
finished — in particular when all have — the loader has run exactly once;
and a caller arriving (taking its first step) after the store insert goes
straight to done on the fast path. -/
theorem c1_single_flight (n : Nat) (s : GState n) (h : Reachable n s) :
    s.calls ≤ 1
    ∧ (∀ i v, s.ts i = TState.done v → v = 1 ∧ s.store = some 1)
    ∧ ((∃ i v, s.ts i = TState.done v) → s.calls = 1 ∧ s.store = some 1)
    ∧ ((∀ i, ∃ v, s.ts i = TState.done v) → 0 < n → s.calls = 1)
    ∧ (∀ i v, s.ts i = TState.start → s.store = some v →
        Step s { s with ts := Function.update s.ts i (TState.done v) }) := by
  have hi := inv_reachable n s h
  refine ⟨hi.callsLe, hi.doneSt, ?_, ?_, ?_⟩
  · rintro ⟨i, v, hd⟩
    obtain ⟨_, hst⟩ := hi.doneSt i v hd
    exact ⟨(hi.stored 1 hst).2, hst⟩
  · intro hall hn
    obtain ⟨v, hd⟩ := hall ⟨0, hn⟩
    obtain ⟨_, hst⟩ := hi.doneSt _ v hd
    exact (hi.stored 1 hst).2
  · intro i v h1 h2
    exact Step.fastHit s i v h1 h2

/-- Concrete single-goroutine run, step by step: the states after `missGo`,
`obtainNew`, `lockAcq`, `recheckMiss`, `runLoader`, `storeRes`, `doRelease`
and `doUnlock`. -/
def c1s1 : GState 1 :=
  { initState 1 with ts := Function.update (initState 1).ts 0 TState.obtainQ }

def c1s2 : GState 1 :=
  { c1s1 with ts := Function.update c1s1.ts 0 (TState.lockQ c1s1.next),
              reg := some c1s1.next, next := c1s1.next + 1 }

def c1s3 : GState 1 :=
  { c1s2 with ts := Function.update c1s2.ts 0 (TState.recheckQ 0) }

def c1s4 : GState 1 :=
  { c1s3 with ts := Function.update c1s3.ts 0 (TState.loaderQ 0) }

def c1s5 : GState 1 :=
  { c1s4 with ts := Function.update c1s4.ts 0 (TState.storeQ 0 (c1s4.calls + 1)),
              calls := c1s4.calls + 1 }

def c1s6 : GState 1 :=
  { c1s5 with ts := Function.update c1s5.ts 0 (TState.releaseQ 0 1),
              store := some 1 }

def c1s7 : GState 1 :=
  { c1s6 with ts := Function.update c1s6.ts 0 (TState.unlockQ 0 1),
              reg := none }

def c1s8 : GState 1 :=
  { c1s7 with ts := Function.update c1s7.ts 0 (TState.done 1) }

theorem c1s8_reachable : Reachable 1 c1s8 := by
  have h1 : Step (initState 1) c1s1 := Step.missGo (initState 1) 0 rfl rfl
  have h2 : Step c1s1 c1s2 := Step.obtainNew c1s1 0 (by decide) rfl
  have h3 : Step c1s2 c1s3 := Step.lockAcq c1s2 0 0 (by decide) (by decide)
  have h4 : Step c1s3 c1s4 := Step.recheckMiss c1s3 0 0 (by decide) rfl
  have h5 : Step c1s4 c1s5 := Step.runLoader c1s4 0 0 (by decide)
  have h6 : Step c1s5 c1s6 := Step.storeRes c1s5 0 0 1 (by decide)
  have h7 : Step c1s6 c1s7 := Step.doRelease c1s6 0 0 1 (by decide)
  have h8 : Step c1s7 c1s8 := Step.doUnlock c1s7 0 0 1 (by decide)
  exact Relation.ReflTransGen.head h1 (Relation.ReflTransGen.head h2
    (Relation.ReflTransGen.head h3 (Relation.ReflTransGen.head h4
      (Relation.ReflTransGen.head h5 (Relation.ReflTransGen.head h6
        (Relation.ReflTransGen.head h7 (Relation.ReflTransGen.single h8)))))))

/-- Closed instance of `c1_single_flight` at the end of the concrete
single-goroutine run: the caller is done, the loader ran exactly once, and
the store holds the loader's value. -/
theorem c1_single_flight_witness : c1s8.calls = 1 ∧ c1s8.store = some 1 :=
  (c1_single_flight 1 c1s8 c1s8_reachable).2.2.1 ⟨0, 1, rfl⟩

end Lockotron
